import Mathlib

/-
Verification of the PubGrub-style version solver core
(src/poetry/mixology/version_solver.py) and the package collection helper
(src/poetry/packages/package_collection.py).

The embedding translates each function of the source into an executable Lean
definition.  Collaborator types that live outside the two source files
(Version, Constraint, Dependency, Term, Incompatibility, the provider) are
modelled from the specification's data-model section: versions are opaque
values with a prerelease flag and a next_patch successor, constraints are
sets of versions exposed through an allows test, and a term is a signed
dependency.  Python dictionaries are modelled as association lists whose
lookup returns the most recently stored binding.
-/

set_option maxHeartbeats 1000000

/-- Modelled from the spec: a Version is opaque and totally ordered, with a
notion of prerelease and a next_patch successor.  We represent it by a
numeric rank plus a prerelease flag; next_patch yields a later final
version. -/
structure Version where
  num : Nat
  prerelease : Bool
deriving DecidableEq, Repr

/-- Modelled from the spec: the next_patch successor of a version. -/
def Version.next_patch (v : Version) : Version :=
  ⟨v.num + 1, false⟩

/-- Modelled from the spec: a Constraint is an opaque set of versions with an
allows test.  We represent the set by the finite list of versions it
admits; `allows` is membership.  All solver code under verification treats
constraints solely through `allows`, so this instance is fully general for
the claims below. -/
def Constraint : Type := List Version
deriving instance DecidableEq, Repr for Constraint

/-- Membership test of a constraint: `dependency.constraint.allows(version)`. -/
def Constraint.allows (c : Constraint) (v : Version) : Bool :=
  (c : List Version).contains v

/-- Modelled from the spec: a Dependency identifies a package by complete_name
(name plus extras tag) and source; it carries a constraint and an
environment marker, and may be the synthetic root.  All fields used by
version_solver.py appear; equality is value-based. -/
structure Dependency where
  name : String
  complete_name : String
  source_type : Option String
  source_url : Option String
  source_reference : Option String
  constraint : Constraint
  marker_is_any : Bool
  is_vcs : Bool
  is_url : Bool
  is_file : Bool
  is_directory : Bool
  is_root : Bool
deriving DecidableEq, Repr

/-- The DependencyCache key of a dependency:
(complete_name, source_type, source_url, source_reference)
(version_solver.py lines 50-55). -/
def Dependency.key (d : Dependency) :
    String × Option String × Option String × Option String :=
  (d.complete_name, d.source_type, d.source_url, d.source_reference)

/-- Modelled from the spec: a resolved package has a name, a complete name and
a chosen version. -/
structure Package where
  name : String
  complete_name : String
  version : Version
deriving DecidableEq, Repr

/-- A package is a prerelease iff its version is (spec data model: Version has
a notion of prerelease). -/
def Package.is_prerelease (p : Package) : Bool :=
  p.version.prerelease

/-- Modelled from the spec: `dependency.is_same_package_as(package)` holds iff
they are about the same package including its extras tag: the
complete_names coincide.  (The similar-lock path bypasses this check via
allow_similar.) -/
def Dependency.is_same_package_as (d : Dependency) (p : Package) : Bool :=
  d.complete_name == p.complete_name

/-- A pairing of a dependency with a specific package
(spec glossary: DependencyPackage). -/
structure DependencyPackage where
  dependency : Dependency
  package : Package
deriving DecidableEq, Repr

/-- DependencyPackage delegates `version` to the wrapped package. -/
def DependencyPackage.version (p : DependencyPackage) : Version :=
  p.package.version

/-- Association-list lookup modelling Python dict.get: the most recently
stored binding for the key wins. -/
def assocFind {κ α : Type} [DecidableEq κ] (l : List (κ × α)) (k : κ) :
    Option α :=
  (l.find? (fun q => decide (q.1 = k))).map Prod.snd

/-- Association-list store modelling Python dict assignment: prepend the new
binding, shadowing any earlier one. -/
def assocUpdate {κ α : Type} [DecidableEq κ] (l : List (κ × α)) (k : κ)
    (v : α) : List (κ × α) :=
  (k, v) :: l

/-- The state of DependencyCache (version_solver.py lines 33-68): the provider
(whose search may fail with a ValueError, modelled as none), the keyed
dict `self.cache`, and the functools.lru_cache memoization on `search_for`,
keyed on the whole dependency value.  The memo is modelled without the
128-entry capacity bound; every trace below stays far under it. -/
structure DependencyCache where
  provider_search : Dependency → Option (List DependencyPackage)
  cache : List ((String × Option String × Option String × Option String)
    × List DependencyPackage)
  lru : List (Dependency × List DependencyPackage)

/-- DependencyCache.search_for (version_solver.py lines 48-65), including the
lru_cache decorator: a memo hit returns the stored list without running the
body; otherwise the keyed dict is consulted, a miss asks the provider, a
hit filters the stored list by the dependency's constraint, and the result
is stored back under both the key and the memo.  A provider ValueError
(none) propagates without storing anything. -/
def DependencyCache.search_for (c : DependencyCache) (d : Dependency) :
    Option (List DependencyPackage) × DependencyCache :=
  match assocFind c.lru d with
  | some memo => (some memo, c)
  | none =>
    let found :=
      match assocFind c.cache d.key with
      | none => c.provider_search d
      | some ps =>
        some (ps.filter (fun p => d.constraint.allows p.package.version))
    match found with
    | none => (none, c)
    | some packages =>
      (some packages,
        { c with
          cache := assocUpdate c.cache d.key packages
          lru := assocUpdate c.lru d packages })

/-- DependencyCache.clear (version_solver.py lines 67-68): `self.cache.clear()`
empties the keyed dict only; the lru_cache memoization is untouched. -/
def DependencyCache.clear (c : DependencyCache) : DependencyCache :=
  { c with cache := [] }

/-- Example versions and packages used by the concrete traces below. -/
def exVer1 : Version := ⟨1, false⟩

def exVer2 : Version := ⟨2, false⟩

def exVer3 : Version := ⟨3, false⟩

def exDep (c : Constraint) : Dependency :=
  { name := "foo", complete_name := "foo", source_type := none,
    source_url := none, source_reference := none, constraint := c,
    marker_is_any := true, is_vcs := false, is_url := false,
    is_file := false, is_directory := false, is_root := false }

def exDepWide : Dependency := exDep [exVer2, exVer1]

def exDepNarrow : Dependency := exDep [exVer1]

/-- A second wide dependency, distinct from exDepWide as a value (its
constraint also admits an unoffered version) but with the same cache key
and admitting both offered versions. -/
def exDepWide2 : Dependency := exDep [exVer2, exVer1, exVer3]

def exPkg1 : DependencyPackage :=
  ⟨exDepWide, { name := "foo", complete_name := "foo", version := exVer1 }⟩

def exPkg2 : DependencyPackage :=
  ⟨exDepWide, { name := "foo", complete_name := "foo", version := exVer2 }⟩

/-- A provider offering foo 2.0 and foo 1.0, newest first, pre-filtered by the
queried dependency's constraint as the spec's provider contract states. -/
def exCache0 : DependencyCache :=
  { provider_search := fun d =>
      some ([exPkg2, exPkg1].filter
        (fun p => d.constraint.allows p.package.version))
    cache := []
    lru := [] }

/-- First call: exDepWide, a lru and keyed-dict miss, consults the provider. -/
def c2s1 : Option (List DependencyPackage) × DependencyCache :=
  exCache0.search_for exDepWide

/-- Second call: exDepNarrow hits the keyed dict and narrows the stored list
to the single version it allows. -/
def c2s2 : Option (List DependencyPackage) × DependencyCache :=
  c2s1.2.search_for exDepNarrow

/-- Third call: exDepWide2 (a fresh dependency value with the same key,
allowing both offered versions) receives the narrowed stored list. -/
def c2s3 : Option (List DependencyPackage) × DependencyCache :=
  c2s2.2.search_for exDepWide2

/-- Fourth call: after clear(), exDepWide2 again. -/
def c2s4 : Option (List DependencyPackage) × DependencyCache :=
  (c2s3.2.clear).search_for exDepWide2

/-- C2: after clear(), search_for(exDepWide2) is answered by the lru_cache
memoization (which clear() does not reset): it returns the pre-clear
narrowed list [foo 1.0] without consulting the provider and without
repopulating the keyed dict, although a fresh provider consult for the
same dependency yields [foo 2.0, foo 1.0].  The candidate foo 2.0 dropped
by the pre-clear narrowing therefore does not become viable again. -/
theorem c2_clear_keeps_stale_memo :
    c2s4.1 = some [exPkg1]
    ∧ exCache0.provider_search exDepWide2 = some [exPkg2, exPkg1]
    ∧ c2s4.2.cache = [] := by
  decide

/-- First call of the C8 trace: exDepWide is a miss everywhere and obtains
both versions from the provider. -/
def c8s1 : Option (List DependencyPackage) × DependencyCache :=
  exCache0.search_for exDepWide

/-- Second call of the C8 trace: exDepNarrow narrows the stored list for the
shared key to [foo 1.0]. -/
def c8s2 : Option (List DependencyPackage) × DependencyCache :=
  c8s1.2.search_for exDepNarrow

/-- Third call of the C8 trace: exDepWide again, with no intervening clear. -/
def c8s3 : Option (List DependencyPackage) × DependencyCache :=
  c8s2.2.search_for exDepWide

/-- C8 counterexample: between two clear() calls, the third search_for call
for the key returns [foo 2.0, foo 1.0] — served by the lru_cache
memoization — which is not a subset of the second call's result [foo 1.0],
and is not the previously stored list filtered by the dependency's
constraint.  The claimed monotone narrowing of successive search_for
results fails on the code as written. -/
theorem c8_counterexample :
    c8s2.1 = some [exPkg1]
    ∧ c8s3.1 = some [exPkg2, exPkg1]
    ∧ exPkg2 ∉ [exPkg1] := by
  decide

/-- C8 (amended): for a call that is not served by the lru_cache memoization
(the exact dependency value was not queried before), when the keyed dict
already holds a list for the dependency's key, search_for returns that
stored list filtered by dependency.constraint.allows, stores the filtered
list back under the key, and the result is a subset of the previous
stored list: monotone narrowing holds along the memo-missing calls of a
decision epoch. -/
theorem c8_search_for_narrows (c : DependencyCache) (d : Dependency)
    (ps : List DependencyPackage)
    (hmiss : assocFind c.lru d = none)
    (hstored : assocFind c.cache d.key = some ps) :
    (c.search_for d).1
      = some (ps.filter (fun p => d.constraint.allows p.package.version))
    ∧ assocFind (c.search_for d).2.cache d.key
      = some (ps.filter (fun p => d.constraint.allows p.package.version))
    ∧ ∀ q ∈ ps.filter (fun p => d.constraint.allows p.package.version),
        q ∈ ps := by
  unfold DependencyCache.search_for
  rw [hmiss, hstored]
  refine ⟨rfl, ?_, ?_⟩
  · simp [assocFind, assocUpdate]
  · intro q hq
    exact List.mem_of_mem_filter hq

/-- A cache state whose keyed dict already holds both versions for the key of
exDepNarrow, with an empty memoization layer. -/
def c8WitCache : DependencyCache :=
  { provider_search := fun _ => none
    cache := [(exDepNarrow.key, [exPkg2, exPkg1])]
    lru := [] }

/-- Witness for the amended C8 theorem at a concrete cache and dependency. -/
theorem c8_search_for_narrows_witness :
    assocFind c8WitCache.lru exDepNarrow = none
    ∧ ((c8WitCache.search_for exDepNarrow).1
        = some ([exPkg2, exPkg1].filter
          (fun p => exDepNarrow.constraint.allows p.package.version))
      ∧ assocFind (c8WitCache.search_for exDepNarrow).2.cache exDepNarrow.key
        = some ([exPkg2, exPkg1].filter
          (fun p => exDepNarrow.constraint.allows p.package.version))
      ∧ ∀ q ∈ [exPkg2, exPkg1].filter
          (fun p => exDepNarrow.constraint.allows p.package.version),
          q ∈ [exPkg2, exPkg1]) :=
  ⟨rfl, c8_search_for_narrows c8WitCache exDepNarrow [exPkg2, exPkg1] rfl rfl⟩

/-- Modelled from the spec: a Term is a pair of a dependency and a positivity
flag. -/
structure Term where
  dependency : Dependency
  positive : Bool
deriving DecidableEq, Repr

/-- Modelled from the spec: the inverse of a term flips its sign. -/
def Term.inverse (t : Term) : Term :=
  ⟨t.dependency, !t.positive⟩

/-- `term.is_positive()`. -/
def Term.is_positive (t : Term) : Bool :=
  t.positive

mutual
/-- Modelled from the spec: the cause of an incompatibility.  ConflictCause
carries the two parent incompatibilities of a learned clause. -/
inductive Cause where
  | root : Cause
  | noVersions : Cause
  | packageNotFound : Cause
  | dependencyCause : Cause
  | python : Cause
  | conflict (left right : Incompatibility) : Cause

/-- An incompatibility: a list of terms jointly unsatisfiable, plus a cause. -/
inductive Incompatibility where
  | mk (terms : List Term) (cause : Cause) : Incompatibility
end

/-- The terms of an incompatibility. -/
def Incompatibility.terms : Incompatibility → List Term
  | .mk ts _ => ts

/-- The cause of an incompatibility. -/
def Incompatibility.cause : Incompatibility → Cause
  | .mk _ c => c

/-- Modelled from the spec: `is_failure()` holds iff the term list is empty or
its single term is the root positive term. -/
def Incompatibility.is_failure (i : Incompatibility) : Bool :=
  i.terms.isEmpty ||
    (match i.terms with
     | [t] => t.dependency.is_root && t.positive
     | _ => false)

/-- The synthetic root dependency built at the start of solve()
(version_solver.py lines 111-112): Dependency(root.name, root.version) with
is_root set afterwards.  The constraint pins the exact root version. -/
def rootDependency (name : String) (ver : Version) : Dependency :=
  { name := name, complete_name := name, source_type := none,
    source_url := none, source_reference := none, constraint := [ver],
    marker_is_any := true, is_vcs := false, is_url := false,
    is_file := false, is_directory := false, is_root := true }

/-- The incompatibilities added by solve() before its propagation loop starts
(version_solver.py lines 114-116): the single call
add_incompatibility(Incompatibility([Term(root_dependency, False)],
RootCause())). -/
def solveInitialIncompatibilities (name : String) (ver : Version) :
    List Incompatibility :=
  [Incompatibility.mk [⟨rootDependency name ver, false⟩] Cause.root]

/-- The root dependency of the concrete counterexample. -/
def exRootDep : Dependency := rootDependency "root" exVer1

/-- C1 counterexample: at the concrete root ("root", version 1), solve() seeds
exactly one incompatibility, whose single term is Term(root_dependency,
False): its positivity flag is false, refuting the claim that the root
dependency is taken positively. -/
theorem c1_counterexample :
    solveInitialIncompatibilities "root" exVer1
      = [Incompatibility.mk [⟨exRootDep, false⟩] Cause.root]
    ∧ (⟨exRootDep, false⟩ : Term).positive = false :=
  ⟨rfl, rfl⟩

/-- C1 (amended): when solve() begins it adds exactly one initial
incompatibility, with a RootCause, whose single term is the synthetic root
dependency taken negatively — the incompatibility of "not root", which is
what expresses that the root must be selected. -/
theorem c1_initial_incompatibility (name : String) (ver : Version) :
    solveInitialIncompatibilities name ver
      = [Incompatibility.mk [⟨rootDependency name ver, false⟩] Cause.root]
    ∧ (solveInitialIncompatibilities name ver).length = 1
    ∧ (rootDependency name ver).is_root = true :=
  ⟨rfl, rfl, rfl⟩

/-- Modelled from the spec: the relation of the partial solution to a term. -/
inductive SetRelation where
  | subset : SetRelation
  | disjoint : SetRelation
  | overlapping : SetRelation
deriving DecidableEq, Repr

/-- The three-way return of _propagate_incompatibility: the conflict sentinel,
the unsatisfied term's complete_name, or None. -/
inductive PropResult where
  | conflictFound : PropResult
  | derivedName (s : String) : PropResult
  | noResult : PropResult
deriving DecidableEq, Repr

/-- The observable effects of one _propagate_incompatibility call: its return
value, whether the incompatibility was added to the contradicted set
during this call, and the derive() call made, as the pair of the dependency
and the derived sign (not unsatisfied.is_positive()). -/
structure PropOut where
  result : PropResult
  contradicted : Bool
  derived : Option (Dependency × Bool)
deriving DecidableEq, Repr

/-- The term scan of _propagate_incompatibility (version_solver.py lines
184-224), parametric in the partial solution's relation function.  The
accumulator is the unsatisfied term found so far.  On a DISJOINT term the
incompatibility is marked contradicted and None is returned; on a second
OVERLAPPING term None is returned without marking; if the scan finishes
with no unsatisfied term the conflict sentinel is returned; otherwise the
incompatibility is marked contradicted, the negation of the unsatisfied
term is derived, and its complete_name is returned. -/
def propagateScan (rel : Term → SetRelation) :
    List Term → Option Term → PropOut
  | [], none => ⟨.conflictFound, false, none⟩
  | [], some u =>
    ⟨.derivedName u.dependency.complete_name, true,
      some (u.dependency, !u.is_positive)⟩
  | t :: rest, acc =>
    match rel t with
    | .disjoint => ⟨.noResult, true, none⟩
    | .subset => propagateScan rel rest acc
    | .overlapping =>
      match acc with
      | some _ => ⟨.noResult, false, none⟩
      | none => propagateScan rel rest (some t)

/-- VersionSolver._propagate_incompatibility, parametric in the partial
solution's relation function. -/
def propagate_incompatibility (rel : Term → SetRelation)
    (inc : Incompatibility) : PropOut :=
  propagateScan rel inc.terms none

/-- Three terms on distinct packages, named a, b, c. -/
def exTermA : Term := ⟨{ exDep [exVer1] with name := "a", complete_name := "a" }, true⟩

def exTermB : Term := ⟨{ exDep [exVer1] with name := "b", complete_name := "b" }, true⟩

def exTermC : Term := ⟨{ exDep [exVer1] with name := "c", complete_name := "c" }, true⟩

/-- A concrete relation function assigning OVERLAPPING to a and b and
DISJOINT to c. -/
def exRelOOD (t : Term) : SetRelation :=
  if t.dependency.complete_name = "c" then .disjoint else .overlapping

/-- A concrete relation function assigning OVERLAPPING to a and DISJOINT
to b. -/
def exRelOD (t : Term) : SetRelation :=
  if t.dependency.complete_name = "b" then .disjoint else .overlapping

/-- C3 counterexample.  First conjunct: on an incompatibility with terms
[a, b, c] related as [OVERLAPPING, OVERLAPPING, DISJOINT], some term is
DISJOINT yet the call returns None without marking the incompatibility
contradicted — the second OVERLAPPING term is reached first.  Second
conjunct: on terms [a, b] related as [OVERLAPPING, DISJOINT], exactly one
term is unsatisfied (OVERLAPPING) yet nothing is derived and None is
returned rather than the term's complete_name. -/
theorem c3_counterexample :
    (exRelOOD exTermC = .disjoint
      ∧ propagate_incompatibility exRelOOD
          (.mk [exTermA, exTermB, exTermC] Cause.root)
        = ⟨.noResult, false, none⟩)
    ∧ ((exRelOD exTermA = .overlapping ∧ exRelOD exTermB = .disjoint)
      ∧ propagate_incompatibility exRelOD
          (.mk [exTermA, exTermB] Cause.root)
        = ⟨.noResult, true, none⟩) := by
  decide

/-- If every term of the list is SUBSET, the scan returns the conflict
sentinel iff it started with no unsatisfied term. -/
theorem propagateScan_conflict_iff (rel : Term → SetRelation) :
    ∀ (l : List Term) (acc : Option Term),
      (propagateScan rel l acc).result = .conflictFound
        ↔ (acc = none ∧ ∀ t ∈ l, rel t = .subset) := by
  intro l
  induction l with
  | nil =>
    intro acc
    cases acc <;> simp [propagateScan]
  | cons t rest ih =>
    intro acc
    cases h : rel t with
    | disjoint =>
      simp only [propagateScan, h]
      constructor
      · intro hc
        exact absurd hc (by simp)
      · rintro ⟨-, hall⟩
        rw [hall t (by simp)] at h
        cases h
    | subset =>
      simp only [propagateScan, h]
      rw [ih acc]
      constructor
      · rintro ⟨ha, hall⟩
        refine ⟨ha, ?_⟩
        intro x hx
        rcases List.mem_cons.mp hx with hx | hx
        · rw [hx]; exact h
        · exact hall x hx
      · rintro ⟨ha, hall⟩
        exact ⟨ha, fun x hx => hall x (List.mem_cons_of_mem t hx)⟩
    | overlapping =>
      cases acc with
      | some u =>
        simp only [propagateScan, h]
        constructor
        · intro hc
          exact absurd hc (by simp)
        · rintro ⟨hc, -⟩
          cases hc
      | none =>
        simp only [propagateScan, h]
        rw [ih (some t)]
        constructor
        · rintro ⟨hc, -⟩
          cases hc
        · rintro ⟨-, hall⟩
          rw [hall t (by simp)] at h
          cases h

/-- If some term of the list is DISJOINT, the scan returns None and derives
nothing (it exits early at the first DISJOINT term or at a second
OVERLAPPING term). -/
theorem propagateScan_disjoint (rel : Term → SetRelation) :
    ∀ (l : List Term) (acc : Option Term),
      (∃ t ∈ l, rel t = .disjoint) →
      (propagateScan rel l acc).result = .noResult
        ∧ (propagateScan rel l acc).derived = none := by
  intro l
  induction l with
  | nil =>
    rintro acc ⟨t, ht, -⟩
    cases ht
  | cons x rest ih =>
    rintro acc ⟨t, ht, hd⟩
    cases h : rel x with
    | disjoint => simp [propagateScan, h]
    | subset =>
      simp only [propagateScan, h]
      refine ih acc ⟨t, ?_, hd⟩
      rcases List.mem_cons.mp ht with rfl | ht
      · rw [hd] at h; cases h
      · exact ht
    | overlapping =>
      cases acc with
      | some u => simp [propagateScan, h]
      | none =>
        simp only [propagateScan, h]
        refine ih (some x) ⟨t, ?_, hd⟩
        rcases List.mem_cons.mp ht with rfl | ht
        · rw [hd] at h; cases h
        · exact ht

/-- If at least two terms are OVERLAPPING (counting a pending unsatisfied
accumulator), the scan returns None and derives nothing. -/
theorem propagateScan_two_overlapping (rel : Term → SetRelation) :
    ∀ (l : List Term) (acc : Option Term),
      (2 ≤ l.countP (fun x => decide (rel x = .overlapping))
        ∨ (1 ≤ l.countP (fun x => decide (rel x = .overlapping))
            ∧ acc.isSome = true)) →
      (propagateScan rel l acc).result = .noResult
        ∧ (propagateScan rel l acc).derived = none := by
  intro l
  induction l with
  | nil =>
    intro acc hcount
    simp only [List.countP_nil] at hcount
    rcases hcount with h | ⟨h, -⟩ <;> omega
  | cons x rest ih =>
    intro acc hcount
    cases h : rel x with
    | disjoint => simp [propagateScan, h]
    | subset =>
      simp only [propagateScan, h]
      refine ih acc ?_
      rwa [List.countP_cons_of_neg _ _ (by simp [h])] at hcount
    | overlapping =>
      cases acc with
      | some u => simp [propagateScan, h]
      | none =>
        simp only [propagateScan, h]
        refine ih (some x) ?_
        rw [List.countP_cons_of_pos _ _ (by simp [h])] at hcount
        simp only [Option.isSome_none, Bool.false_eq_true, and_false,
          or_false] at hcount
        exact Or.inr ⟨by omega, rfl⟩

/-- The number of pending unsatisfied terms held by the scan accumulator. -/
def pendingCount : Option Term → Nat
  | none => 0
  | some _ => 1

/-- If a DISJOINT term occurs and, before it, no term is DISJOINT and at most
one term is OVERLAPPING (counting a pending unsatisfied accumulator), the
scan reaches the DISJOINT term, marks the incompatibility contradicted,
and returns None. -/
theorem propagateScan_first_disjoint (rel : Term → SetRelation)
    (t : Term) (post : List Term) (hd : rel t = .disjoint) :
    ∀ (pre : List Term) (acc : Option Term),
      (∀ x ∈ pre, rel x ≠ .disjoint) →
      (pre.countP (fun x => decide (rel x = .overlapping))
          + pendingCount acc ≤ 1) →
      propagateScan rel (pre ++ t :: post) acc = ⟨.noResult, true, none⟩ := by
  intro pre
  induction pre with
  | nil =>
    intro acc hnd hcount
    cases acc <;> simp [propagateScan, hd]
  | cons x rest ih =>
    intro acc hnd hcount
    cases h : rel x with
    | disjoint => exact absurd h (hnd x (by simp))
    | subset =>
      simp only [List.cons_append, propagateScan, h]
      refine ih acc (fun y hy => hnd y (List.mem_cons_of_mem x hy)) ?_
      rwa [List.countP_cons_of_neg _ _ (by simp [h])] at hcount
    | overlapping =>
      rw [List.countP_cons_of_pos _ _ (by simp [h])] at hcount
      cases acc with
      | some u =>
        simp only [pendingCount] at hcount
        omega
      | none =>
        simp only [List.cons_append, propagateScan, h]
        refine ih (some x)
          (fun y hy => hnd y (List.mem_cons_of_mem x hy)) ?_
        simp only [pendingCount] at hcount ⊢
        omega

/-- A run of SUBSET terms is skipped by the scan without changing the
accumulator. -/
theorem propagateScan_skip_subset (rel : Term → SetRelation)
    (l2 : List Term) :
    ∀ (pre : List Term) (acc : Option Term),
      (∀ x ∈ pre, rel x = .subset) →
      propagateScan rel (pre ++ l2) acc = propagateScan rel l2 acc := by
  intro pre
  induction pre with
  | nil => intro acc _; rfl
  | cons x rest ih =>
    intro acc hall
    have hx : rel x = .subset := hall x (by simp)
    simp only [List.cons_append, propagateScan, hx]
    exact ih acc (fun y hy => hall y (List.mem_cons_of_mem x hy))

/-- With a pending unsatisfied term and only SUBSET terms remaining, the scan
completes, marks the incompatibility contradicted, derives the negation of
the unsatisfied term and returns its complete_name. -/
theorem propagateScan_derives (rel : Term → SetRelation) (u : Term) :
    ∀ (l : List Term),
      (∀ x ∈ l, rel x = .subset) →
      propagateScan rel l (some u)
        = ⟨.derivedName u.dependency.complete_name, true,
            some (u.dependency, !u.is_positive)⟩ := by
  intro l hall
  rw [show l = l ++ [] by simp]
  rw [propagateScan_skip_subset rel [] l (some u) hall]
  rfl

/-- If a prefix free of DISJOINT terms already holds two OVERLAPPING terms
(counting a pending unsatisfied accumulator), the scan exits inside that
prefix at the second OVERLAPPING term, returning None without marking the
incompatibility contradicted and without deriving, whatever follows. -/
theorem propagateScan_second_overlap (rel : Term → SetRelation) :
    ∀ (pre rest : List Term) (acc : Option Term),
      (∀ x ∈ pre, rel x ≠ .disjoint) →
      2 ≤ pre.countP (fun x => decide (rel x = .overlapping))
          + pendingCount acc →
      propagateScan rel (pre ++ rest) acc = ⟨.noResult, false, none⟩ := by
  intro pre
  induction pre with
  | nil =>
    intro rest acc _ hcount
    exfalso
    simp only [List.countP_nil] at hcount
    cases acc <;> simp [pendingCount] at hcount
  | cons x xs ih =>
    intro rest acc hnd hcount
    cases h : rel x with
    | disjoint => exact absurd h (hnd x (by simp))
    | subset =>
      simp only [List.cons_append, propagateScan, h]
      refine ih rest acc (fun y hy => hnd y (List.mem_cons_of_mem x hy)) ?_
      rwa [List.countP_cons_of_neg _ _ (by simp [h])] at hcount
    | overlapping =>
      rw [List.countP_cons_of_pos _ _ (by simp [h])] at hcount
      cases acc with
      | some u => simp [propagateScan, h]
      | none =>
        simp only [List.cons_append, propagateScan, h]
        refine ih rest (some x)
          (fun y hy => hnd y (List.mem_cons_of_mem x hy)) ?_
        simp only [pendingCount] at hcount ⊢
        omega

/-- C3 (amended): _propagate_incompatibility returns the conflict sentinel iff
the solution's relation to every term is SUBSET.  If some term is DISJOINT
it returns None deriving nothing, and it marks the incompatibility
contradicted exactly when the first DISJOINT term is scanned before a
second OVERLAPPING term: at most one OVERLAPPING term before the first
DISJOINT yields None with the incompatibility marked, while two or more
before it yield None unmarked.  If two or more terms are OVERLAPPING it
returns None without deriving.  If exactly one term is OVERLAPPING and
every other term is SUBSET, it marks the incompatibility contradicted,
derives the negation of that term with the incompatibility as cause, and
returns that term's complete_name. -/
theorem c3_propagate_cases (rel : Term → SetRelation)
    (inc : Incompatibility) :
    ((propagate_incompatibility rel inc).result = .conflictFound
      ↔ ∀ t ∈ inc.terms, rel t = .subset)
    ∧ ((∃ t ∈ inc.terms, rel t = .disjoint) →
        (propagate_incompatibility rel inc).result = .noResult
        ∧ (propagate_incompatibility rel inc).derived = none)
    ∧ (∀ pre t post, inc.terms = pre ++ t :: post → rel t = .disjoint →
        (∀ x ∈ pre, rel x ≠ .disjoint) →
        pre.countP (fun x => decide (rel x = .overlapping)) ≤ 1 →
        propagate_incompatibility rel inc = ⟨.noResult, true, none⟩)
    ∧ (2 ≤ inc.terms.countP (fun x => decide (rel x = .overlapping)) →
        (propagate_incompatibility rel inc).result = .noResult
        ∧ (propagate_incompatibility rel inc).derived = none)
    ∧ (∀ pre u post, inc.terms = pre ++ u :: post → rel u = .overlapping →
        (∀ x ∈ pre, rel x = .subset) → (∀ x ∈ post, rel x = .subset) →
        propagate_incompatibility rel inc
          = ⟨.derivedName u.dependency.complete_name, true,
              some (u.dependency, !u.is_positive)⟩)
    ∧ (∀ pre t post, inc.terms = pre ++ t :: post → rel t = .disjoint →
        (∀ x ∈ pre, rel x ≠ .disjoint) →
        2 ≤ pre.countP (fun x => decide (rel x = .overlapping)) →
        propagate_incompatibility rel inc = ⟨.noResult, false, none⟩) := by
  refine ⟨?_, ?_, ?_, ?_, ?_, ?_⟩
  · rw [propagate_incompatibility, propagateScan_conflict_iff]
    simp
  · exact propagateScan_disjoint rel inc.terms none
  · intro pre t post heq hd hnd hcp
    rw [propagate_incompatibility, heq]
    exact propagateScan_first_disjoint rel t post hd pre none hnd
      (by simpa [pendingCount] using hcp)
  · intro h2
    exact propagateScan_two_overlapping rel inc.terms none (Or.inl h2)
  · intro pre u post heq ho hpre hpost
    rw [propagate_incompatibility, heq,
      propagateScan_skip_subset rel (u :: post) pre none hpre]
    simp only [propagateScan, ho]
    exact propagateScan_derives rel u post hpost
  · intro pre t post heq hd hnd hcp
    rw [propagate_incompatibility, heq]
    refine propagateScan_second_overlap rel pre (t :: post) none hnd ?_
    simpa [pendingCount] using hcp

/-- Witness for the amended C3 theorem: a single OVERLAPPING term on package
a is derived — negated, marking contradicted — and its complete_name is
returned. -/
theorem c3_propagate_cases_witness :
    propagate_incompatibility exRelOD (.mk [exTermA] Cause.root)
      = ⟨.derivedName "a", true, some (exTermA.dependency, false)⟩ := by
  have h := (c3_propagate_cases exRelOD (.mk [exTermA] Cause.root)).2.2.2.2.1
    [] exTermA [] rfl (by decide) (by simp) (by simp)
  exact h

/-- Modelled from the spec: an assignment of the partial solution, as consumed
by _resolve_conflict: its insertion rank, decision level, optional cause
(None for decisions), and dependency. -/
structure Assignment where
  index : Nat
  decision_level : Nat
  cause : Option Incompatibility
  dependency : Dependency

/-- The loop state of the satisfier scan in _resolve_conflict
(version_solver.py lines 244-294): most_recent_term, most_recent_satisfier,
difference, previous_satisfier_level. -/
structure ConflictScan where
  mostRecentTerm : Option Term
  mostRecentSat : Option Assignment
  difference : Option Term
  previousSatisfierLevel : Nat

/-- The first half of the scan body (version_solver.py lines 268-283): update
most_recent_term/satisfier by index order, folding the other satisfiers'
decision levels into previous_satisfier_level. -/
def conflictScanCore (st : ConflictScan) (term : Term)
    (satisfier : Assignment) : ConflictScan :=
  match st.mostRecentSat with
  | none =>
    { st with mostRecentTerm := some term, mostRecentSat := some satisfier }
  | some m =>
    if m.index < satisfier.index then
      { st with
        mostRecentTerm := some term
        mostRecentSat := some satisfier
        difference := none
        previousSatisfierLevel :=
          max st.previousSatisfierLevel m.decision_level }
    else
      { st with
        previousSatisfierLevel :=
          max st.previousSatisfierLevel satisfier.decision_level }

/-- The second half of the scan body (version_solver.py lines 285-294): when
the current term is the most recent one, recompute the difference and, if
partial, fold the decision level of the satisfier of its inverse into
previous_satisfier_level. -/
def conflictScanAdjust (sol : Term → Assignment)
    (adiff : Assignment → Term → Option Term) (st1 : ConflictScan)
    (term : Term) : ConflictScan :=
  if st1.mostRecentTerm = some term then
    match st1.mostRecentSat with
    | some m =>
      match adiff m term with
      | none => { st1 with difference := none }
      | some dterm =>
        { st1 with
          difference := some dterm
          previousSatisfierLevel :=
            max st1.previousSatisfierLevel
              (sol dterm.inverse).decision_level }
    | none => st1
  else st1

/-- One iteration of the satisfier scan of _resolve_conflict, parametric in
the solution's satisfier query and the assignment difference operation. -/
def conflictScanStep (sol : Term → Assignment)
    (adiff : Assignment → Term → Option Term) (st : ConflictScan)
    (term : Term) : ConflictScan :=
  conflictScanAdjust sol adiff (conflictScanCore st term (sol term)) term

/-- The initial scan state: previous_satisfier_level starts at 1
(version_solver.py line 265). -/
def conflictScanInit : ConflictScan :=
  ⟨none, none, none, 1⟩

/-- The full satisfier scan over the incompatibility's terms. -/
def conflictScan (sol : Term → Assignment)
    (adiff : Assignment → Term → Option Term) (terms : List Term) :
    ConflictScan :=
  terms.foldl (conflictScanStep sol adiff) conflictScanInit

/-- The action taken by one iteration of _resolve_conflict's outer loop:
raise SolveFailure, backjump (recording the backtrack level, the clearing
of the contradicted set and of the dependency cache, whether the clause
was added to the index, and the returned incompatibility), or resolve to
a new incompatibility and continue. -/
inductive ResolveStep where
  | failure (inc : Incompatibility) : ResolveStep
  | backtrack (level : Nat) (clearedContradicted : Bool)
      (clearedCache : Bool) (addedToIndex : Bool)
      (returned : Incompatibility) : ResolveStep
  | resolve (next : Incompatibility) : ResolveStep

/-- One iteration of _resolve_conflict (version_solver.py lines 240-357):
test is_failure, scan the satisfiers, and either backjump — backtracking
to previous_satisfier_level, clearing the contradicted set and the
dependency cache, adding the clause to the index only if it was newly
learned, and returning it — or build the resolvent incompatibility with a
ConflictCause.  The unreachable arm (a non-failure incompatibility whose
scan found no satisfier, impossible for a non-empty term list) mirrors the
source's assert. -/
def resolveConflictInner (sol : Term → Assignment)
    (adiff : Assignment → Term → Option Term) (newIncomp : Bool)
    (inc : Incompatibility) (m : Assignment) (mrt : Term) : ResolveStep :=
  -- the branch of the iteration taken once the scan has produced the most
  -- recent satisfier m and most recent term mrt (lines 304-349)
  if (conflictScan sol adiff inc.terms).previousSatisfierLevel
        < m.decision_level
      ∨ m.cause.isNone = true then
    .backtrack (conflictScan sol adiff inc.terms).previousSatisfierLevel
      true true newIncomp inc
  else
    .resolve (.mk
      (inc.terms.filter (fun t => !decide (t = mrt))
        ++ (m.cause.getD (.mk [] Cause.root)).terms.filter
            (fun t => !decide (t.dependency = m.dependency))
        ++ (match (conflictScan sol adiff inc.terms).difference with
            | some dt => [dt.inverse]
            | none => []))
      (Cause.conflict inc (m.cause.getD (.mk [] Cause.root))))

def resolveConflictStep (sol : Term → Assignment)
    (adiff : Assignment → Term → Option Term) (newIncomp : Bool)
    (inc : Incompatibility) : ResolveStep :=
  if inc.is_failure then .failure inc
  else
    match (conflictScan sol adiff inc.terms).mostRecentSat,
        (conflictScan sol adiff inc.terms).mostRecentTerm with
    | some m, some mrt => resolveConflictInner sol adiff newIncomp inc m mrt
    | _, _ => .failure inc

/-- The first half of the scan body never decreases previous_satisfier_level. -/
theorem conflictScanCore_psl_le (st : ConflictScan) (term : Term)
    (satisfier : Assignment) :
    st.previousSatisfierLevel
      ≤ (conflictScanCore st term satisfier).previousSatisfierLevel := by
  unfold conflictScanCore
  cases st.mostRecentSat with
  | none => exact Nat.le_refl _
  | some m =>
    dsimp only
    split
    · exact Nat.le_max_left _ _
    · exact Nat.le_max_left _ _

/-- The second half of the scan body never decreases previous_satisfier_level. -/
theorem conflictScanAdjust_psl_le (sol : Term → Assignment)
    (adiff : Assignment → Term → Option Term) (st1 : ConflictScan)
    (term : Term) :
    st1.previousSatisfierLevel
      ≤ (conflictScanAdjust sol adiff st1 term).previousSatisfierLevel := by
  unfold conflictScanAdjust
  split
  · cases st1.mostRecentSat with
    | none => exact Nat.le_refl _
    | some m =>
      dsimp only
      cases adiff m term with
      | none => exact Nat.le_refl _
      | some dterm => exact Nat.le_max_left _ _
  · exact Nat.le_refl _

/-- One scan iteration never decreases previous_satisfier_level. -/
theorem conflictScanStep_psl_le (sol : Term → Assignment)
    (adiff : Assignment → Term → Option Term) (st : ConflictScan)
    (term : Term) :
    st.previousSatisfierLevel
      ≤ (conflictScanStep sol adiff st term).previousSatisfierLevel :=
  Nat.le_trans (conflictScanCore_psl_le st term (sol term))
    (conflictScanAdjust_psl_le sol adiff _ term)

/-- previous_satisfier_level stays at or above its value in the start state
throughout the scan. -/
theorem conflictScan_foldl_psl_le (sol : Term → Assignment)
    (adiff : Assignment → Term → Option Term) :
    ∀ (l : List Term) (st : ConflictScan),
      st.previousSatisfierLevel
        ≤ (l.foldl (conflictScanStep sol adiff) st).previousSatisfierLevel := by
  intro l
  induction l with
  | nil => intro st; exact Nat.le_refl _
  | cons t rest ih =>
    intro st
    exact Nat.le_trans (conflictScanStep_psl_le sol adiff st t)
      (ih (conflictScanStep sol adiff st t))

/-- previous_satisfier_level is floored at 1: it starts there and is only
ever raised by max. -/
theorem conflictScan_psl_ge_one (sol : Term → Assignment)
    (adiff : Assignment → Term → Option Term) (terms : List Term) :
    1 ≤ (conflictScan sol adiff terms).previousSatisfierLevel :=
  conflictScan_foldl_psl_le sol adiff terms conflictScanInit

/-- The second half of the scan body changes neither most_recent_term nor
most_recent_satisfier. -/
theorem conflictScanAdjust_keeps (sol : Term → Assignment)
    (adiff : Assignment → Term → Option Term) (st1 : ConflictScan)
    (term : Term) :
    (conflictScanAdjust sol adiff st1 term).mostRecentTerm
        = st1.mostRecentTerm
    ∧ (conflictScanAdjust sol adiff st1 term).mostRecentSat
        = st1.mostRecentSat := by
  unfold conflictScanAdjust
  split
  · cases hm : st1.mostRecentSat with
    | none => exact ⟨rfl, hm⟩
    | some m =>
      dsimp only
      cases adiff m term with
      | none => exact ⟨rfl, rfl⟩
      | some dterm => exact ⟨rfl, rfl⟩
  · exact ⟨rfl, rfl⟩

/-- After one scan iteration both most_recent_satisfier and most_recent_term
are set, provided the start state never has a satisfier without a term. -/
theorem conflictScanStep_some (sol : Term → Assignment)
    (adiff : Assignment → Term → Option Term) (st : ConflictScan)
    (term : Term)
    (h : st.mostRecentSat.isSome = true → st.mostRecentTerm.isSome = true) :
    (conflictScanStep sol adiff st term).mostRecentSat.isSome = true
    ∧ (conflictScanStep sol adiff st term).mostRecentTerm.isSome = true := by
  have hk := conflictScanAdjust_keeps sol adiff
    (conflictScanCore st term (sol term)) term
  unfold conflictScanStep
  rw [hk.1, hk.2]
  unfold conflictScanCore
  cases hms : st.mostRecentSat with
  | none => exact ⟨rfl, rfl⟩
  | some m =>
    dsimp only
    split
    · exact ⟨rfl, rfl⟩
    · exact ⟨rfl, h (by rw [hms]; rfl)⟩

/-- For a non-empty term list the scan ends with both most_recent_satisfier
and most_recent_term set. -/
theorem conflictScan_some (sol : Term → Assignment)
    (adiff : Assignment → Term → Option Term) (t : Term) (rest : List Term) :
    (conflictScan sol adiff (t :: rest)).mostRecentSat.isSome = true
    ∧ (conflictScan sol adiff (t :: rest)).mostRecentTerm.isSome = true := by
  have haux : ∀ (l : List Term) (st : ConflictScan),
      st.mostRecentSat.isSome = true → st.mostRecentTerm.isSome = true →
      (l.foldl (conflictScanStep sol adiff) st).mostRecentSat.isSome = true
      ∧ (l.foldl (conflictScanStep sol adiff) st).mostRecentTerm.isSome
          = true := by
    intro l
    induction l with
    | nil => intro st h1 h2; exact ⟨h1, h2⟩
    | cons x xs ih =>
      intro st h1 h2
      have hs := conflictScanStep_some sol adiff st x (fun _ => h2)
      exact ih _ hs.1 hs.2
  have h0 := conflictScanStep_some sol adiff conflictScanInit t
    (fun hc => by cases hc)
  exact haux rest _ h0.1 h0.2

/-- C4: in a _resolve_conflict iteration on a non-failure incompatibility
whose scan found satisfier m for most recent term mrt, (i) the computed
previous_satisfier_level is never below 1; (ii) whenever it is strictly
below m's decision level or m is a decision (its cause is None), the
iteration backjumps: it backtracks the solution to
previous_satisfier_level, clears the contradicted-incompatibilities set,
clears the dependency cache, adds the incompatibility to the index only if
it was newly learned during this resolution, and returns it; (iii) every
backjump taken by the iteration has exactly this shape. -/
theorem c4_resolve_backjump (sol : Term → Assignment)
    (adiff : Assignment → Term → Option Term) (newIncomp : Bool)
    (inc : Incompatibility) (m : Assignment) (mrt : Term)
    (hfail : inc.is_failure = false)
    (hm : (conflictScan sol adiff inc.terms).mostRecentSat = some m)
    (ht : (conflictScan sol adiff inc.terms).mostRecentTerm = some mrt) :
    1 ≤ (conflictScan sol adiff inc.terms).previousSatisfierLevel
    ∧ ((conflictScan sol adiff inc.terms).previousSatisfierLevel
          < m.decision_level ∨ m.cause.isNone = true →
        resolveConflictStep sol adiff newIncomp inc
          = .backtrack
              (conflictScan sol adiff inc.terms).previousSatisfierLevel
              true true newIncomp inc)
    ∧ (∀ l cc ck add ret,
        resolveConflictStep sol adiff newIncomp inc
            = .backtrack l cc ck add ret →
        l = (conflictScan sol adiff inc.terms).previousSatisfierLevel
        ∧ 1 ≤ l ∧ cc = true ∧ ck = true ∧ add = newIncomp ∧ ret = inc) := by
  refine ⟨conflictScan_psl_ge_one sol adiff inc.terms, ?_, ?_⟩
  · intro hcond
    rw [resolveConflictStep, if_neg (by simp [hfail]), hm, ht]
    show resolveConflictInner sol adiff newIncomp inc m mrt = _
    rw [resolveConflictInner, if_pos hcond]
  · intro l cc ck add ret hstep
    rw [resolveConflictStep, if_neg (by simp [hfail]), hm, ht] at hstep
    replace hstep :
        resolveConflictInner sol adiff newIncomp inc m mrt
          = ResolveStep.backtrack l cc ck add ret := hstep
    rw [resolveConflictInner] at hstep
    by_cases hcond :
        (conflictScan sol adiff inc.terms).previousSatisfierLevel
          < m.decision_level ∨ m.cause.isNone = true
    · rw [if_pos hcond] at hstep
      cases hstep
      exact ⟨rfl, conflictScan_psl_ge_one sol adiff inc.terms, rfl, rfl,
        rfl, rfl⟩
    · rw [if_neg hcond] at hstep
      cases hstep

/-- A single-term incompatibility on package a with a DependencyCause. -/
def exIncA : Incompatibility := .mk [exTermA] Cause.dependencyCause

/-- A decision assignment (cause None) at decision level 5. -/
def exAssignDecision : Assignment := ⟨0, 5, none, exTermA.dependency⟩

/-- A satisfier query answering exAssignDecision for every term. -/
def exSol : Term → Assignment := fun _ => exAssignDecision

/-- An assignment difference operation that always reports total
satisfaction. -/
def exDiff : Assignment → Term → Option Term := fun _ _ => none

/-- Witness for C4 at a concrete iteration: the satisfier is a decision, so
the iteration backjumps to level 1 with both clears, without adding the
original incompatibility to the index. -/
theorem c4_resolve_backjump_witness :
    exIncA.is_failure = false
    ∧ 1 ≤ (conflictScan exSol exDiff exIncA.terms).previousSatisfierLevel
    ∧ resolveConflictStep exSol exDiff false exIncA
        = .backtrack
            (conflictScan exSol exDiff exIncA.terms).previousSatisfierLevel
            true true false exIncA := by
  have h := c4_resolve_backjump exSol exDiff false exIncA exAssignDecision
    exTermA rfl rfl rfl
  exact ⟨rfl, h.1, h.2.1 (Or.inr rfl)⟩

/-- The error outcomes of the solver core: the SolveFailure raised by
_resolve_conflict, or an error raised by the provider. -/
inductive SolveErr where
  | solveFailure (inc : Incompatibility) : SolveErr
  | providerError (msg : String) : SolveErr

/-- The outer loop of _resolve_conflict (version_solver.py lines 240-359),
with fuel: while the incompatibility is not a failure, run one iteration;
a backjump returns the incompatibility, reaching a failure incompatibility
raises SolveFailure carrying it.  After the first resolvent the
new_incompatibility flag is true. -/
def resolveConflictLoop (sol : Term → Assignment)
    (adiff : Assignment → Term → Option Term) :
    Nat → Bool → Incompatibility →
      Option (Except SolveErr Incompatibility)
  | 0, _, _ => none
  | fuel + 1, newIncomp, inc =>
    match resolveConflictStep sol adiff newIncomp inc with
    | .failure i => some (.error (.solveFailure i))
    | .backtrack _ _ _ _ ret => some (.ok ret)
    | .resolve nxt => resolveConflictLoop sol adiff fuel true nxt

/-- The try/except/raise wrapper of solve() (version_solver.py lines
118-126): the bare `except Exception: raise` re-raises every error
unchanged, so the wrapper is the identity on outcomes. -/
def solveWrapped {σ : Type} (body : Except SolveErr σ) :
    Except SolveErr σ :=
  match body with
  | .error e => .error e
  | .ok v => .ok v

/-- An iteration only produces the failure action when the incompatibility
already satisfies is_failure, and it then carries that incompatibility
itself. -/
theorem resolveConflictStep_failure (sol : Term → Assignment)
    (adiff : Assignment → Term → Option Term) (newIncomp : Bool)
    (inc : Incompatibility) (j : Incompatibility)
    (h : resolveConflictStep sol adiff newIncomp inc = .failure j) :
    j = inc ∧ inc.is_failure = true := by
  by_cases hfail : inc.is_failure = true
  · rw [resolveConflictStep, if_pos hfail] at h
    cases h
    exact ⟨rfl, hfail⟩
  · exfalso
    rw [resolveConflictStep, if_neg hfail] at h
    have hne : inc.terms ≠ [] := by
      intro hnil
      apply hfail
      rw [Incompatibility.is_failure, hnil]
      rfl
    obtain ⟨t, rest, hts⟩ := List.exists_cons_of_ne_nil hne
    rw [hts] at h
    obtain ⟨h1, h2⟩ := conflictScan_some sol adiff t rest
    rw [Option.isSome_iff_exists] at h1 h2
    obtain ⟨m, hm⟩ := h1
    obtain ⟨mrt, hmt⟩ := h2
    rw [hm, hmt] at h
    replace h : resolveConflictInner sol adiff newIncomp inc m mrt
        = ResolveStep.failure j := h
    rw [resolveConflictInner] at h
    by_cases hcond :
        (conflictScan sol adiff inc.terms).previousSatisfierLevel
          < m.decision_level ∨ m.cause.isNone = true
    · rw [if_pos hcond] at h
      cases h
    · rw [if_neg hcond] at h
      cases h

/-- C5: the only terminal error the loop produces is SolveFailure and it
carries an incompatibility satisfying is_failure (with its cause structure
intact, being the very value reached); conversely an incompatibility
satisfying is_failure at loop entry immediately raises SolveFailure
carrying it; and solve()'s try/except/raise wrapper passes every outcome —
in particular any provider error — through unchanged. -/
theorem c5_solve_failure (sol : Term → Assignment)
    (adiff : Assignment → Term → Option Term) :
    (∀ (fuel : Nat) (newIncomp : Bool) (inc i : Incompatibility),
      resolveConflictLoop sol adiff fuel newIncomp inc
          = some (.error (.solveFailure i)) →
      i.is_failure = true)
    ∧ (∀ (fuel : Nat) (newIncomp : Bool) (inc : Incompatibility),
        inc.is_failure = true →
        resolveConflictLoop sol adiff (fuel + 1) newIncomp inc
          = some (.error (.solveFailure inc)))
    ∧ (∀ (r : Except SolveErr Incompatibility), solveWrapped r = r) := by
  refine ⟨?_, ?_, ?_⟩
  · intro fuel
    induction fuel with
    | zero =>
      intro newIncomp inc i h
      cases h
    | succ n ih =>
      intro newIncomp inc i h
      rw [resolveConflictLoop] at h
      cases hstep : resolveConflictStep sol adiff newIncomp inc with
      | failure j =>
        rw [hstep] at h
        have hj := resolveConflictStep_failure sol adiff newIncomp inc j
          hstep
        cases h
        rw [hj.1]
        exact hj.2
      | backtrack l cc ck add ret =>
        rw [hstep] at h
        cases h
      | resolve nxt =>
        rw [hstep] at h
        exact ih true nxt i h
  · intro fuel newIncomp inc hfail
    rw [resolveConflictLoop, resolveConflictStep, if_pos hfail]
  · intro r
    cases r with
    | error e => rfl
    | ok v => rfl

/-- The empty incompatibility: the terminal failure clause. -/
def exEmptyInc : Incompatibility := .mk [] Cause.root

/-- Witness for C5 at concrete inputs: the empty incompatibility satisfies
is_failure, the loop immediately raises SolveFailure carrying it, and a
concrete provider error passes through the solve() wrapper unchanged. -/
theorem c5_solve_failure_witness :
    exEmptyInc.is_failure = true
    ∧ resolveConflictLoop exSol exDiff 1 false exEmptyInc
        = some (.error (.solveFailure exEmptyInc))
    ∧ solveWrapped (.error (.providerError "connection reset"))
        = (.error (.providerError "connection reset")
            : Except SolveErr Incompatibility) := by
  have h := c5_solve_failure exSol exDiff
  refine ⟨?_, h.2.1 0 false exEmptyInc rfl, h.2.2 _⟩
  exact h.1 1 false exEmptyInc exEmptyInc (h.2.1 0 false exEmptyInc rfl)

/-- The solver inputs consulted by _get_locked and the decision heuristic:
the locked map (name to locked packages) and the use_latest list
(version_solver.py lines 84-95). -/
structure SolverEnv where
  locked : List (String × List DependencyPackage)
  use_latest : List String

/-- VersionSolver._get_locked (version_solver.py lines 500-514): None for a
use_latest package; otherwise the first locked package for the name that
(unless allow_similar) is the same package as the dependency and whose
version is allowed by the constraint — or is a prerelease whose next_patch
the constraint allows — re-wrapped with the querying dependency. -/
def VersionSolver.get_locked (env : SolverEnv) (d : Dependency)
    (allow_similar : Bool) : Option DependencyPackage :=
  if env.use_latest.contains d.name then none
  else
    match ((assocFind env.locked d.name).getD []).find? (fun p =>
        (allow_similar || d.is_same_package_as p.package)
        && (d.constraint.allows p.version
            || (p.package.is_prerelease
                && d.constraint.allows p.version.next_patch))) with
    | some p => some ⟨d, p.package⟩
    | none => none

/-- C10: _get_locked returns a locked package even when the constraint does
not allow the package's version, provided the package is a prerelease and
the constraint allows its version's next_patch; and it returns None for a
use_latest package regardless of allow_similar. -/
theorem c10_get_locked (env : SolverEnv) (d : Dependency)
    (p : DependencyPackage) (sim : Bool)
    (hlatest : env.use_latest.contains d.name = false)
    (hlocked : assocFind env.locked d.name = some [p])
    (hsame : d.is_same_package_as p.package = true)
    (hnallow : d.constraint.allows p.version = false)
    (hpre : p.package.is_prerelease = true)
    (hnext : d.constraint.allows p.version.next_patch = true) :
    VersionSolver.get_locked env d sim = some ⟨d, p.package⟩
    ∧ ∀ (env2 : SolverEnv) (d2 : Dependency) (sim2 : Bool),
        env2.use_latest.contains d2.name = true →
        VersionSolver.get_locked env2 d2 sim2 = none := by
  constructor
  · rw [VersionSolver.get_locked,
      if_neg (fun hc => Bool.noConfusion (hlatest ▸ hc)), hlocked]
    simp [List.find?, hsame, hnallow, hpre, hnext]
  · intro env2 d2 sim2 h2
    rw [VersionSolver.get_locked, if_pos h2]

/-- A prerelease version 1 (pre). -/
def exPreVer : Version := ⟨1, true⟩

/-- A locked prerelease package foo 1-pre. -/
def exLockPkg : DependencyPackage :=
  ⟨exDepWide, { name := "foo", complete_name := "foo", version := exPreVer }⟩

/-- A solver environment locking foo to the prerelease, with nothing in
use_latest. -/
def exEnvLock : SolverEnv :=
  { locked := [("foo", [exLockPkg])], use_latest := [] }

/-- The same lock but with foo forced to latest. -/
def exEnvLatest : SolverEnv :=
  { locked := [("foo", [exLockPkg])], use_latest := ["foo"] }

/-- Witness for C10: a dependency allowing only version 2 accepts the locked
prerelease 1-pre because next_patch lands on 2; with foo in use_latest the
same query returns None even with allow_similar. -/
theorem c10_get_locked_witness :
    VersionSolver.get_locked exEnvLock (exDep [exVer2]) false
      = some ⟨exDep [exVer2], exLockPkg.package⟩
    ∧ VersionSolver.get_locked exEnvLatest (exDep [exVer2]) true = none := by
  have h := c10_get_locked exEnvLock (exDep [exVer2]) exLockPkg false
    rfl rfl rfl rfl rfl rfl
  exact ⟨h.1, h.2 exEnvLatest (exDep [exVer2]) true rfl⟩

/-- Python tuple comparison of the heuristic key (marker_is_specific,
candidate_count): lexicographic with False < True. -/
def keyLt (a b : Bool × Nat) : Bool :=
  (!a.1 && b.1) || (a.1 == b.1 && decide (a.2 < b.2))

/-- keyLt is irreflexive. -/
theorem keyLt_irrefl (a : Bool × Nat) : keyLt a a = false := by
  obtain ⟨a1, a2⟩ := a
  cases a1 <;> simp [keyLt]

/-- keyLt is transitive. -/
theorem keyLt_trans (a b c : Bool × Nat) (h1 : keyLt a b = true)
    (h2 : keyLt b c = true) : keyLt a c = true := by
  obtain ⟨a1, a2⟩ := a
  obtain ⟨b1, b2⟩ := b
  obtain ⟨c1, c2⟩ := c
  cases a1 <;> cases b1 <;> cases c1 <;> simp [keyLt] at * <;> omega

/-- keyLt is total enough: below b and not-strictly-below from c means
strictly below c. -/
theorem keyLt_le_trans (a b c : Bool × Nat) (h1 : keyLt a b = true)
    (h2 : keyLt c b = false) : keyLt a c = true := by
  obtain ⟨a1, a2⟩ := a
  obtain ⟨b1, b2⟩ := b
  obtain ⟨c1, c2⟩ := c
  cases a1 <;> cases b1 <;> cases c1 <;> simp [keyLt] at * <;> omega

/-- Python's min over an already-evaluated list of (dependency, key) pairs:
keep the first element whose key no later key strictly undercuts. -/
def selectMin (ps : List (Dependency × (Bool × Nat))) :
    Option (Dependency × (Bool × Nat)) :=
  match ps with
  | [] => none
  | p :: rest =>
    some (rest.foldl (fun best q => if keyLt q.2 best.2 then q else best) p)

/-- The min fold returns its seed or a list element. -/
theorem selectMinFold_mem :
    ∀ (rest : List (Dependency × (Bool × Nat))) (p : Dependency × (Bool × Nat)),
      rest.foldl (fun best q => if keyLt q.2 best.2 then q else best) p = p
      ∨ rest.foldl (fun best q => if keyLt q.2 best.2 then q else best) p
          ∈ rest := by
  intro rest
  induction rest with
  | nil => intro p; exact Or.inl rfl
  | cons x xs ih =>
    intro p
    rw [List.foldl_cons]
    rcases ih (if keyLt x.2 p.2 then x else p) with h | h
    · rw [h]
      by_cases hx : keyLt x.2 p.2 = true
      · rw [if_pos hx]; exact Or.inr (by simp)
      · rw [if_neg hx]; exact Or.inl rfl
    · exact Or.inr (List.mem_cons_of_mem x h)

/-- No element of the seed-plus-list family has a key strictly below the min
fold's key. -/
theorem selectMinFold_min :
    ∀ (rest : List (Dependency × (Bool × Nat)))
      (p q : Dependency × (Bool × Nat)), q = p ∨ q ∈ rest →
      keyLt q.2
        (rest.foldl (fun best r => if keyLt r.2 best.2 then r else best) p).2
        = false := by
  intro rest
  induction rest with
  | nil =>
    rintro p q (rfl | hq)
    · exact keyLt_irrefl q.2
    · cases hq
  | cons x xs ih =>
    rintro p q hq
    rw [List.foldl_cons]
    by_cases hx : keyLt x.2 p.2 = true
    · rw [if_pos hx]
      rcases hq with rfl | hq2
      · have hxr := ih x x (Or.inl rfl)
        cases hres : keyLt q.2
            ((xs.foldl (fun best r => if keyLt r.2 best.2 then r else best)
              x).2) with
        | false => rfl
        | true =>
          exfalso
          have htr := keyLt_trans x.2 q.2 _ hx hres
          rw [htr] at hxr
          exact Bool.noConfusion hxr
      · rcases List.mem_cons.mp hq2 with rfl | hq3
        · exact ih q q (Or.inl rfl)
        · exact ih x q (Or.inr hq3)
    · rw [if_neg hx]
      rcases hq with rfl | hq2
      · exact ih q q (Or.inl rfl)
      · rcases List.mem_cons.mp hq2 with rfl | hq3
        · have hpr := ih p p (Or.inl rfl)
          cases hres : keyLt q.2
              ((xs.foldl (fun best r => if keyLt r.2 best.2 then r else best)
                p).2) with
          | false => rfl
          | true =>
            exfalso
            exact hx (keyLt_le_trans q.2 _ p.2 hres hpr)
        · exact ih p q (Or.inr hq3)

/-- selectMin returns a pair of the list whose key no listed key strictly
undercuts. -/
theorem selectMin_spec (ps : List (Dependency × (Bool × Nat)))
    (r : Dependency × (Bool × Nat)) (h : selectMin ps = some r) :
    r ∈ ps ∧ ∀ q ∈ ps, keyLt q.2 r.2 = false := by
  cases ps with
  | nil => cases h
  | cons p rest =>
    rw [selectMin] at h
    cases h
    constructor
    · rcases selectMinFold_mem rest p with hm | hm
      · rw [hm]; exact List.mem_cons_self p rest
      · exact List.mem_cons_of_mem p hm
    · intro q hq
      rcases List.mem_cons.mp hq with rfl | hq2
      · exact selectMinFold_min rest q q (Or.inl rfl)
      · exact selectMinFold_min rest p q (Or.inr hq2)

/-- The _get_min key of _choose_package_version (version_solver.py lines
375-401): (marker is not any, candidate count), where the count is 1 for a
use_latest, locked, or VCS/URL/file/directory dependency, and otherwise
the length of the cache's search_for result — 0 if that search raises
ValueError.  The search threads the cache state. -/
def VersionSolver.get_min (env : SolverEnv) (cache : DependencyCache)
    (d : Dependency) : (Bool × Nat) × DependencyCache :=
  if env.use_latest.contains d.name then ((!d.marker_is_any, 1), cache)
  else if (VersionSolver.get_locked env d false).isSome then
    ((!d.marker_is_any, 1), cache)
  else if d.is_vcs || d.is_url || d.is_file || d.is_directory then
    ((!d.marker_is_any, 1), cache)
  else
    match cache.search_for d with
    | (some ps, c2) => ((!d.marker_is_any, ps.length), c2)
    | (none, c2) => ((!d.marker_is_any, 0), c2)

/-- The keys computed by Python's min(*unsatisfied, key=_get_min): one key
per dependency, evaluated in list order with the cache state threaded
through. -/
def evalKeys (env : SolverEnv) :
    List Dependency → DependencyCache →
      List (Dependency × (Bool × Nat)) × DependencyCache
  | [], cache => ([], cache)
  | d :: rest, cache =>
    ((d, (VersionSolver.get_min env cache d).1)
        :: (evalKeys env rest (VersionSolver.get_min env cache d).2).1,
      (evalKeys env rest (VersionSolver.get_min env cache d).2).2)

/-- The dependency-selection phase of _choose_package_version
(version_solver.py lines 369-406): None when nothing is unsatisfied, the
sole unsatisfied dependency when there is exactly one, and otherwise
min(*unsatisfied, key=_get_min). -/
def choose_package_dependency (env : SolverEnv) (cache : DependencyCache)
    (unsatisfied : List Dependency) :
    Option Dependency × DependencyCache :=
  match unsatisfied with
  | [] => (none, cache)
  | [d] => (some d, cache)
  | _ =>
    ((selectMin (evalKeys env unsatisfied cache).1).map Prod.fst,
      (evalKeys env unsatisfied cache).2)

/-- C6: the selection phase returns None exactly when no dependency is
unsatisfied; with one unsatisfied dependency it returns it; with several
it returns a dependency whose evaluated key no other evaluated key
strictly undercuts, the keys being (marker is not any, candidate count)
with count 1 for use_latest, locked, or VCS/URL/file/directory
dependencies, the search_for length otherwise, and 0 when the search
raises. -/
theorem c6_choose_package_version (env : SolverEnv)
    (cache : DependencyCache) (unsatisfied : List Dependency) :
    ((choose_package_dependency env cache unsatisfied).1 = none
      ↔ unsatisfied = [])
    ∧ (∀ d, unsatisfied = [d] →
        (choose_package_dependency env cache unsatisfied).1 = some d)
    ∧ (∀ d, 2 ≤ unsatisfied.length →
        (choose_package_dependency env cache unsatisfied).1 = some d →
        ∃ k, (d, k) ∈ (evalKeys env unsatisfied cache).1
          ∧ ∀ q ∈ (evalKeys env unsatisfied cache).1,
              keyLt q.2 k = false)
    ∧ (∀ (c : DependencyCache) (d : Dependency),
        env.use_latest.contains d.name = true →
        VersionSolver.get_min env c d = ((!d.marker_is_any, 1), c))
    ∧ (∀ (c : DependencyCache) (d : Dependency),
        env.use_latest.contains d.name = false →
        (VersionSolver.get_locked env d false).isSome = true →
        VersionSolver.get_min env c d = ((!d.marker_is_any, 1), c))
    ∧ (∀ (c : DependencyCache) (d : Dependency),
        env.use_latest.contains d.name = false →
        (VersionSolver.get_locked env d false).isSome = false →
        (d.is_vcs || d.is_url || d.is_file || d.is_directory) = true →
        VersionSolver.get_min env c d = ((!d.marker_is_any, 1), c))
    ∧ (∀ (c c2 : DependencyCache) (d : Dependency)
        (ps : List DependencyPackage),
        env.use_latest.contains d.name = false →
        (VersionSolver.get_locked env d false).isSome = false →
        (d.is_vcs || d.is_url || d.is_file || d.is_directory) = false →
        c.search_for d = (some ps, c2) →
        VersionSolver.get_min env c d = ((!d.marker_is_any, ps.length), c2))
    ∧ (∀ (c c2 : DependencyCache) (d : Dependency),
        env.use_latest.contains d.name = false →
        (VersionSolver.get_locked env d false).isSome = false →
        (d.is_vcs || d.is_url || d.is_file || d.is_directory) = false →
        c.search_for d = (none, c2) →
        VersionSolver.get_min env c d = ((!d.marker_is_any, 0), c2)) := by
  refine ⟨?_, ?_, ?_, ?_, ?_, ?_, ?_, ?_⟩
  · cases unsatisfied with
    | nil => simp [choose_package_dependency]
    | cons d rest =>
      cases rest with
      | nil => simp [choose_package_dependency]
      | cons d2 rest2 =>
        show (selectMin (evalKeys env (d :: d2 :: rest2) cache).1).map
            Prod.fst = none ↔ d :: d2 :: rest2 = []
        simp [evalKeys, selectMin]
  · intro d hd
    rw [hd]
    rfl
  · intro d hlen hsel
    cases unsatisfied with
    | nil => cases hsel
    | cons d1 rest =>
      cases rest with
      | nil => simp at hlen
      | cons d2 rest2 =>
        replace hsel :
            (selectMin (evalKeys env (d1 :: d2 :: rest2) cache).1).map
              Prod.fst = some d := hsel
        rw [Option.map_eq_some'] at hsel
        obtain ⟨r, hr, hrd⟩ := hsel
        have hspec := selectMin_spec _ r hr
        refine ⟨r.2, ?_, hspec.2⟩
        rw [← hrd]
        exact hspec.1
  · intro c d h
    rw [VersionSolver.get_min, if_pos h]
  · intro c d h hl
    rw [VersionSolver.get_min,
      if_neg (fun hc => Bool.noConfusion (h ▸ hc)), if_pos hl]
  · intro c d h hl hp
    rw [VersionSolver.get_min,
      if_neg (fun hc => Bool.noConfusion (h ▸ hc)),
      if_neg (fun hc => Bool.noConfusion (hl ▸ hc)), if_pos hp]
  · intro c c2 d ps h hl hp hs
    rw [VersionSolver.get_min,
      if_neg (fun hc => Bool.noConfusion (h ▸ hc)),
      if_neg (fun hc => Bool.noConfusion (hl ▸ hc)),
      if_neg (fun hc => Bool.noConfusion (hp ▸ hc)), hs]
  · intro c c2 d h hl hp hs
    rw [VersionSolver.get_min,
      if_neg (fun hc => Bool.noConfusion (h ▸ hc)),
      if_neg (fun hc => Bool.noConfusion (hl ▸ hc)),
      if_neg (fun hc => Bool.noConfusion (hp ▸ hc)), hs]

/-- A solver environment with no locks and nothing forced to latest. -/
def c6Env : SolverEnv := { locked := [], use_latest := [] }

/-- A provider offering two candidates for package a and one for any other
package. -/
def c6Cache : DependencyCache :=
  { provider_search := fun d =>
      if d.complete_name = "a" then some [exPkg2, exPkg1] else some [exPkg1]
    cache := []
    lru := [] }

/-- Witness for C6: between a (two candidates) and b (one candidate) the
heuristic selects b, whose evaluated key (false, 1) no evaluated key
strictly undercuts. -/
theorem c6_choose_package_version_witness :
    (choose_package_dependency c6Env c6Cache
        [exTermA.dependency, exTermB.dependency]).1
      = some exTermB.dependency
    ∧ ∃ k, (exTermB.dependency, k)
          ∈ (evalKeys c6Env [exTermA.dependency, exTermB.dependency]
              c6Cache).1
        ∧ ∀ q ∈ (evalKeys c6Env [exTermA.dependency, exTermB.dependency]
              c6Cache).1, keyLt q.2 k = false := by
  have hsel : (choose_package_dependency c6Env c6Cache
      [exTermA.dependency, exTermB.dependency]).1
        = some exTermB.dependency := by decide
  exact ⟨hsel,
    (c6_choose_package_version c6Env c6Cache
      [exTermA.dependency, exTermB.dependency]).2.2.1 exTermB.dependency
      (by decide) hsel⟩

/-- The outcome of the package-selection phase of _choose_package_version:
a chosen package, or the incompatibility added when the provider raised
or no version satisfied the constraint (the dependency's complete_name is
then returned as the next seed). -/
inductive ChooseOutcome where
  | chosen (p : DependencyPackage) : ChooseOutcome
  | notFoundIncomp (d : Dependency) : ChooseOutcome
  | noVersionsIncomp (d : Dependency) : ChooseOutcome
deriving DecidableEq, Repr

/-- The package-selection phase of _choose_package_version
(version_solver.py lines 408-443) for the chosen dependency: take the
locked package when _get_locked finds one; otherwise search, then — unless
the dependency is in use_latest — prefer a similar-lock match
(allow_similar=True) whose version appears among the candidates, and fall
back to the first (newest) candidate; an empty candidate list yields a
NoVersionsCause incompatibility, a provider ValueError a
PackageNotFoundCause one. -/
def choose_package_from (env : SolverEnv) (cache : DependencyCache)
    (d : Dependency) : ChooseOutcome × DependencyCache :=
  match VersionSolver.get_locked env d false with
  | some locked => (.chosen locked, cache)
  | none =>
    match cache.search_for d with
    | (none, c2) => (.notFoundIncomp d, c2)
    | (some packages, c2) =>
      match
        (if env.use_latest.contains d.name then none
         else VersionSolver.get_locked env d true).bind
          (fun l => packages.find? (fun p => p.version == l.version)) with
      | some p => (.chosen p, c2)
      | none =>
        match packages.head? with
        | some p => (.chosen p, c2)
        | none => (.noVersionsIncomp d, c2)

/-- The use_latest guard before the similar-lock query is redundant:
_get_locked itself returns None for a use_latest dependency. -/
theorem get_locked_latest_guard (env : SolverEnv) (d : Dependency) :
    (if env.use_latest.contains d.name then none
      else VersionSolver.get_locked env d true)
      = VersionSolver.get_locked env d true := by
  by_cases h : env.use_latest.contains d.name = true
  · rw [if_pos h, VersionSolver.get_locked, if_pos h]
  · rw [if_neg h]

/-- C7: with the chosen dependency, a locked match (necessarily outside
use_latest) is taken as is; otherwise, among the searched candidates, a
similar-lock match (allow_similar=True) whose version appears in the list
is preferred; and only when there is no such match is the first (newest)
candidate taken. -/
theorem c7_locked_preference (env : SolverEnv) (cache : DependencyCache)
    (d : Dependency) :
    (∀ l, VersionSolver.get_locked env d false = some l →
      choose_package_from env cache d = (.chosen l, cache))
    ∧ (∀ ps c2 l p,
        VersionSolver.get_locked env d false = none →
        cache.search_for d = (some ps, c2) →
        VersionSolver.get_locked env d true = some l →
        ps.find? (fun q => q.version == l.version) = some p →
        choose_package_from env cache d = (.chosen p, c2))
    ∧ (∀ ps c2,
        VersionSolver.get_locked env d false = none →
        cache.search_for d = (some ps, c2) →
        (VersionSolver.get_locked env d true).bind
            (fun l => ps.find? (fun q => q.version == l.version)) = none →
        ∀ p rest, ps = p :: rest →
        choose_package_from env cache d = (.chosen p, c2)) := by
  refine ⟨?_, ?_, ?_⟩
  · intro l hl
    rw [choose_package_from, hl]
  · intro ps c2 l p hl hs hl2 hf
    rw [choose_package_from, hl, hs, get_locked_latest_guard, hl2]
    show (match List.find? (fun q => q.version == l.version) ps with
        | some q => (ChooseOutcome.chosen q, c2)
        | none =>
          match ps.head? with
          | some q => (ChooseOutcome.chosen q, c2)
          | none => (ChooseOutcome.noVersionsIncomp d, c2))
      = (ChooseOutcome.chosen p, c2)
    rw [hf]
  · intro ps c2 hl hs hb p rest hps
    rw [choose_package_from, hl, hs, get_locked_latest_guard]
    show (match (VersionSolver.get_locked env d true).bind
          (fun l => List.find? (fun q => q.version == l.version) ps) with
        | some q => (ChooseOutcome.chosen q, c2)
        | none =>
          match ps.head? with
          | some q => (ChooseOutcome.chosen q, c2)
          | none => (ChooseOutcome.noVersionsIncomp d, c2))
      = (ChooseOutcome.chosen p, c2)
    rw [hb, hps]
    rfl

/-- Versions 1.1 and 2.0 of the extras scenario. -/
def exVer11 : Version := ⟨11, false⟩

def exVer20 : Version := ⟨20, false⟩

/-- The dependency pkg[extra] ^1 of the extras scenario: it allows 1.1 and
2.0, and its complete_name carries the extras tag. -/
def exDepExtra : Dependency :=
  { name := "pkg", complete_name := "pkg[extra]", source_type := none,
    source_url := none, source_reference := none,
    constraint := [exVer20, exVer11], marker_is_any := true,
    is_vcs := false, is_url := false, is_file := false,
    is_directory := false, is_root := false }

/-- Candidate pkg[extra] 2.0, the newest. -/
def exPkgExtra20 : DependencyPackage :=
  ⟨exDepExtra, ⟨"pkg", "pkg[extra]", exVer20⟩⟩

/-- Candidate pkg[extra] 1.1. -/
def exPkgExtra11 : DependencyPackage :=
  ⟨exDepExtra, ⟨"pkg", "pkg[extra]", exVer11⟩⟩

/-- The locked pkg 1.1, without extras: not the same package as pkg[extra],
so only the allow_similar query finds it. -/
def exLockPlain : DependencyPackage :=
  ⟨exDepExtra, ⟨"pkg", "pkg", exVer11⟩⟩

/-- Environment locking pkg to 1.1 (no extras). -/
def c7Env : SolverEnv := { locked := [("pkg", [exLockPlain])], use_latest := [] }

/-- Provider offering pkg[extra] 2.0 and 1.1, newest first. -/
def c7Cache : DependencyCache :=
  { provider_search := fun _ => some [exPkgExtra20, exPkgExtra11]
    cache := []
    lru := [] }

/-- Witness for C7 at the extras scenario: the exact lock misses (extras
differ), the similar lock pkg 1.1 matches candidate pkg[extra] 1.1, and
that candidate is chosen over the newest 2.0. -/
theorem c7_locked_preference_witness :
    choose_package_from c7Env c7Cache exDepExtra
      = (.chosen exPkgExtra11, (c7Cache.search_for exDepExtra).2) := by
  exact (c7_locked_preference c7Env c7Cache exDepExtra).2.1
    [exPkgExtra20, exPkgExtra11] (c7Cache.search_for exDepExtra).2
    ⟨exDepExtra, exLockPlain.package⟩ exPkgExtra11 rfl rfl rfl rfl

/-- A plain package or an already-wrapped DependencyPackage, the two
argument shapes PackageCollection.append accepts
(package_collection.py line 31). -/
inductive PkgOrDep where
  | plain (p : Package) : PkgOrDep
  | wrapped (q : DependencyPackage) : PkgOrDep
deriving DecidableEq, Repr

/-- The underlying package of an append argument: a DependencyPackage is
unwrapped first (package_collection.py lines 32-33). -/
def PkgOrDep.underlying : PkgOrDep → Package
  | .plain p => p
  | .wrapped q => q.package

/-- PackageCollection (package_collection.py lines 15-36): the dependency it
was constructed for plus its stored items. -/
structure PackageCollection where
  dependency : Dependency
  items : List DependencyPackage

/-- PackageCollection.append (package_collection.py lines 31-36): unwrap a
DependencyPackage argument, re-wrap the package with the collection's own
dependency, and store it. -/
def PackageCollection.append (c : PackageCollection) (x : PkgOrDep) :
    PackageCollection :=
  { c with items := c.items ++ [⟨c.dependency, x.underlying⟩] }

/-- The PackageCollection constructor (package_collection.py lines 16-29):
start empty and append every supplied package. -/
def PackageCollection.ofList (d : Dependency) (xs : List PkgOrDep) :
    PackageCollection :=
  xs.foldl PackageCollection.append ⟨d, []⟩

/-- Appending never changes the collection's dependency. -/
theorem PackageCollection_append_dependency (c : PackageCollection)
    (x : PkgOrDep) : (c.append x).dependency = c.dependency :=
  rfl

/-- Folding appends extends the items by the underlying packages wrapped
with the collection's dependency. -/
theorem PackageCollection_foldl_items :
    ∀ (xs : List PkgOrDep) (c : PackageCollection),
      (xs.foldl PackageCollection.append c).items
        = c.items ++ xs.map (fun x => ⟨c.dependency, x.underlying⟩) := by
  intro xs
  induction xs with
  | nil => intro c; simp
  | cons x rest ih =>
    intro c
    rw [List.foldl_cons, ih (c.append x)]
    simp [PackageCollection.append]

/-- C9: every element of a PackageCollection built for dependency d —
supplied to the constructor or appended later, plain or already wrapped —
is stored as the DependencyPackage pairing d with the underlying package;
in particular appending a wrapped package discards its original dependency
and re-wraps its package with d. -/
theorem c9_package_collection (d : Dependency) (xs : List PkgOrDep) :
    (PackageCollection.ofList d xs).items
      = xs.map (fun x => ⟨d, x.underlying⟩)
    ∧ (∀ (c : PackageCollection) (q : DependencyPackage),
        (c.append (.wrapped q)).items
          = c.items ++ [⟨c.dependency, q.package⟩])
    ∧ (∀ (c : PackageCollection) (p : Package),
        (c.append (.plain p)).items = c.items ++ [⟨c.dependency, p⟩]) := by
  refine ⟨?_, ?_, ?_⟩
  · rw [PackageCollection.ofList, PackageCollection_foldl_items]
    simp
  · intro c q
    rfl
  · intro c p
    rfl
